import Mathlib

/-!
Shallow embedding of the strategy classification-and-reconciliation engine of
the ITrade web app: `identifyStrategyName`, `groupIntoStrategies` and friends
(`gui/src/lib/strategies.ts`), the order reconciler (`matchOrdersToRows`,
`isExitOrder`, `computeExitLabel`) and the exit-price calculator
(`computeLimitPrice`).

Modelling conventions:
* JavaScript numbers are modelled by `ℚ`; quantities, day counts and epoch
  fields that the program treats as integers are `ℤ`.
* `null`/`undefined` become `Option`.
* JavaScript's implicit number-to-string conversion is modelled by
  `jsNumToString`, which agrees with JS rendering on integers and on
  decimally-terminating rationals (every value this development evaluates on).
* `Math.round` is `jsRound` (floor of x + 1/2, matching JS half-up rounding).
* `Array.prototype.sort` (ES2019+: stable) is `jsSort`, a stable insertion
  sort over a boolean "stays-before" relation; the default comparator sorts
  by the string rendering, as JS does.
-/

/-- Rendering of an integer exactly as JS renders an integral double. -/
def jsIntToString (n : ℤ) : String :=
  if n < 0 then "-" ++ Nat.repr n.natAbs else Nat.repr n.natAbs

/-- Rendering of `number | null` inside a template literal (`null` prints as "null"). -/
def jsOptIntToString : Option ℤ → String
  | none => "null"
  | some n => jsIntToString n

/-- Decimal digits of the fractional part r/d (0 ≤ r < d), up to `fuel` digits. -/
def fracDigits : ℕ → ℕ → ℕ → List Char
  | 0, _, _ => []
  | fuel + 1, r, d =>
    if r = 0 then [] else Nat.digitChar (r * 10 / d) :: fracDigits fuel (r * 10 % d) d

/-- Models JS ToString on a number: sign, integer part, and (when nonzero) a
fractional part.  Exact for integers and decimally-terminating rationals,
which covers every value stringified in this development. -/
def jsNumToString (q : ℚ) : String :=
  let sign := if q < 0 then "-" else ""
  let n := q.num.natAbs
  let d := q.den
  let r := n % d
  sign ++ Nat.repr (n / d) ++
    (if r = 0 then "" else "." ++ String.mk (fracDigits 30 r d))

/-- ToString on `number | null` as the default array sort sees it. -/
def jsOptNumToString : Option ℚ → String
  | none => "null"
  | some q => jsNumToString q

/-- `Math.round`: floor of x + 1/2 (JS rounds halves up). -/
def jsRound (q : ℚ) : ℤ := (q + 1 / 2).floor

/-- Two-digit zero padding. -/
def pad2 (m : ℕ) : String := if m < 10 then "0" ++ Nat.repr m else Nat.repr m

/-- `Number.prototype.toFixed(2)`: sign prefix, then |x| rounded half-up to
two decimals, per the ECMAScript algorithm. -/
def jsToFixed2 (q : ℚ) : String :=
  let s := if q < 0 then "-" else ""
  let n : ℕ := ((|q| * 100 + 1 / 2).floor).toNat
  s ++ Nat.repr (n / 100) ++ "." ++ pad2 (n % 100)

/-- One step of a stable insertion sort: `x` is inserted after every element
`y` of the (already sorted) list with `le y x`. -/
def jsSortInsert (le : α → α → Bool) (x : α) : List α → List α
  | [] => [x]
  | y :: ys => if le y x then y :: jsSortInsert le x ys else x :: y :: ys

/-- Stable sort, modelling `Array.prototype.sort` (stable per ES2019). -/
def jsSort (le : α → α → Bool) (l : List α) : List α :=
  l.foldl (fun acc x => jsSortInsert le x acc) []

/-- `Position` record of `etradeSlice.ts`, restricted to the fields the
classification-and-reconciliation core reads or writes. -/
structure Position where
  symbol : String
  baseSymbol : String
  type : String
  strikePrice : Option ℚ
  callPut : Option String
  quantity : ℤ
  marketValue : ℚ
  totalCost : ℚ
  daysGain : ℚ
  dayGainPct : ℚ
  totalGain : ℚ
  totalGainPct : ℚ
  dte : Option ℤ
  delta : Option ℚ
  gamma : Option ℚ
  theta : Option ℚ
  vega : Option ℚ
  rho : Option ℚ
  iv : Option ℚ
  dateAcquired : Option ℤ
  expiryYear : Option ℤ
  expiryMonth : Option ℤ
  expiryDay : Option ℤ
deriving Repr, DecidableEq

instance : Inhabited Position :=
  ⟨{ symbol := "", baseSymbol := "", type := "", strikePrice := none,
     callPut := none, quantity := 0, marketValue := 0, totalCost := 0,
     daysGain := 0, dayGainPct := 0, totalGain := 0, totalGainPct := 0,
     dte := none, delta := none, gamma := none, theta := none, vega := none,
     rho := none, iv := none, dateAcquired := none, expiryYear := none,
     expiryMonth := none, expiryDay := none }⟩

/-- `DisplayRow` of `strategies.ts`: a `Position` plus optional strategy
fields.  The `_legs` back-reference is `legsRef`; `_posDelta` … `_posRho`
are `posDelta` … `posRho`. -/
structure DisplayRow extends Position where
  isStrategy : Bool := false
  strategyName : Option String := none
  spec : Option String := none
  legCount : Option ℕ := none
  strikeWidth : Option ℚ := none
  highStrike : Option ℚ := none
  exitLabel : Option String := none
  exitOrderId : Option ℤ := none
  legsRef : Option (List Position) := none
  posDelta : Option ℚ := none
  posGamma : Option ℚ := none
  posTheta : Option ℚ := none
  posVega : Option ℚ := none
  posRho : Option ℚ := none
deriving Repr, DecidableEq

/-- `OrderLeg` of `etradeSlice.ts`, restricted to the fields read by the
reconciler. -/
structure OrderLeg where
  symbol : String
  orderedQuantity : ℚ
  orderAction : String
  strikePrice : Option ℚ
  expiryYear : Option ℤ
  expiryMonth : Option ℤ
  expiryDay : Option ℤ
deriving Repr, DecidableEq

/-- `Order` of `etradeSlice.ts`, restricted to the fields read by the
reconciler. -/
structure Order where
  orderId : Option ℤ
  limitPrice : ℚ
  priceType : String
  status : String
  baseSymbol : String
  legs : List OrderLeg
deriving Repr, DecidableEq

/-- `identifyStrategyName` of `strategies.ts`.  NOTE: the 4-leg branch sorts
the strike arrays with the comparator-less `Array.prototype.sort`, i.e. by
string rendering (lexicographic), exactly as the source does. -/
def identifyStrategyName (legs : List Position) : Option String :=
  let calls := legs.filter fun l => l.callPut = some "CALL"
  let puts := legs.filter fun l => l.callPut = some "PUT"
  let twoLeg : Option String :=
    match legs with
    | [a, b] =>
      let oppositeSign := Int.sign a.quantity ≠ Int.sign b.quantity
      if puts.length = 2 ∧ oppositeSign then some "Put Vertical"
      else if calls.length = 2 ∧ oppositeSign then some "Call Vertical"
      else if calls.length = 1 ∧ puts.length = 1 ∧ ¬oppositeSign then
        (if a.strikePrice = b.strikePrice then some "Straddle" else some "Strangle")
      else none
    | _ => none
  match twoLeg with
  | some n => some n
  | none =>
    if legs.length = 4 ∧ calls.length = 2 ∧ puts.length = 2 then
      let callStrikes :=
        jsSort (fun a b => jsOptNumToString a ≤ jsOptNumToString b) (calls.map fun l => l.strikePrice)
      let putStrikes :=
        jsSort (fun a b => jsOptNumToString a ≤ jsOptNumToString b) (puts.map fun l => l.strikePrice)
      if callStrikes.getD 0 none = putStrikes.getD 0 none ∧
          callStrikes.getD 1 none = putStrikes.getD 1 none then some "Box Spread"
      else if callStrikes.getD 0 none = putStrikes.getD 1 none ∨
          putStrikes.getD 0 none = callStrikes.getD 1 none then some "Iron Butterfly"
      else some "Iron Condor"
    else none

/-- `charAt(0).toUpperCase() + slice(1).toLowerCase()`. -/
def jsCapitalize (s : String) : String :=
  match s.data with
  | [] => ""
  | c :: cs => String.mk (c.toUpper :: cs.map Char.toLower)

/-- `singleLegName` of `strategies.ts`. -/
def singleLegName (pos : Position) : String :=
  if pos.type = "OPTN" then (if pos.callPut = some "PUT" then "Put" else "Call")
  else if pos.type = "EQ" then "Equity"
  else jsCapitalize pos.type

/-- `strategySpec` of `strategies.ts`. -/
def strategySpec (strategyName : String) (highStrike strikeWidth : ℚ) : String :=
  if strategyName = "Box Spread" then
    "$" ++ jsIntToString (jsRound (strikeWidth * 100 / 1000)) ++ "k"
  else if strategyName = "Put Vertical" ∨ strategyName = "Call Vertical" then
    jsNumToString highStrike ++ "/" ++ jsNumToString strikeWidth
  else ""

/-- `singleLegSpec` of `strategies.ts`. -/
def singleLegSpec (pos : Position) : String :=
  match pos.strikePrice with
  | some s => if pos.type = "OPTN" then jsNumToString s else ""
  | none => ""

/-- `buildStrategyRow` of `strategies.ts`. -/
def buildStrategyRow (legs : List Position) (strategyName : String) : DisplayRow :=
  let marketValue := (legs.map Position.marketValue).sum
  let daysGain := (legs.map Position.daysGain).sum
  let totalGain := (legs.map Position.totalGain).sum
  let totalCost := (legs.map Position.totalCost).sum
  let absQty : ℤ := (legs.headI.quantity).natAbs
  let signFromCost :=
    strategyName = "Put Vertical" ∨ strategyName = "Call Vertical" ∨
      strategyName = "Box Spread"
  let qty : ℤ := if signFromCost then (if 0 ≤ totalCost then absQty else -absQty) else absQty
  let prevMarketValue := marketValue - daysGain
  let dayGainPct := if prevMarketValue ≠ 0 then daysGain / |prevMarketValue| * 100 else 0
  let totalGainPct := if totalCost ≠ 0 then totalGain / |totalCost| * 100 else 0
  let sumGreek := fun (f : Position → Option ℚ) =>
    legs.foldl (fun acc l =>
      match f l with
      | none => acc
      | some v =>
        some (acc.getD 0 + v * (l.quantity : ℚ) * (if l.type = "OPTN" then 100 else 1))) none
  let strikes := jsSort (fun a b => decide (a ≤ b)) (legs.map fun l => l.strikePrice.getD 0)
  let highStrike := strikes.getLastD 0
  let strikeWidth := highStrike - strikes.headI
  { toPosition := { legs.headI with
      symbol := jsIntToString qty ++ " x " ++ strategyName,
      quantity := qty,
      marketValue := marketValue,
      daysGain := daysGain,
      dayGainPct := dayGainPct,
      totalGain := totalGain,
      totalGainPct := totalGainPct,
      totalCost := totalCost,
      delta := none, gamma := none, theta := none, vega := none, rho := none,
      iv := none },
    isStrategy := true,
    strategyName := some strategyName,
    spec := some (strategySpec strategyName highStrike strikeWidth),
    legsRef := some legs,
    legCount := some legs.length,
    strikeWidth := some strikeWidth,
    highStrike := some highStrike,
    posDelta := sumGreek Position.delta,
    posGamma := sumGreek Position.gamma,
    posTheta := sumGreek Position.theta,
    posVega := sumGreek Position.vega,
    posRho := sumGreek Position.rho }

/-- `trySplitIntoPairs` of `strategies.ts`: the three-iteration loop over the
index pairings (0,1)&(2,3), (0,2)&(1,3), (0,3)&(1,2) is unrolled. -/
def trySplitIntoPairs (legs : List Position) :
    Option ((List Position × String) × (List Position × String)) :=
  match legs with
  | [a, b, c, d] =>
    match identifyStrategyName [a, b], identifyStrategyName [c, d] with
    | some n1, some n2 => some (([a, b], n1), ([c, d], n2))
    | _, _ =>
      match identifyStrategyName [a, c], identifyStrategyName [b, d] with
      | some n1, some n2 => some (([a, c], n1), ([b, d], n2))
      | _, _ =>
        match identifyStrategyName [a, d], identifyStrategyName [b, c] with
        | some n1, some n2 => some (([a, d], n1), ([b, c], n2))
        | _, _ => none
  | _ => none

/-- The delimiter-joined grouping key of `groupIntoStrategies`. -/
def strategyKey (pos : Position) : String :=
  pos.baseSymbol ++ "|" ++ jsOptIntToString pos.dte ++ "|" ++
    jsOptIntToString pos.dateAcquired ++ "|" ++ Nat.repr pos.quantity.natAbs

/-- Insertion into the bucket map, preserving first-seen key order and
within-bucket insertion order (JS `Map` iteration semantics). -/
def mapInsert : List (String × List Position) → String → Position →
    List (String × List Position)
  | [], k, p => [(k, [p])]
  | (k', ps) :: rest, k, p =>
    if k' = k then (k', ps ++ [p]) :: rest else (k', ps) :: mapInsert rest k p

/-- The single loop of `groupIntoStrategies` that splits positions into the
bucket map (OPTN) and the standalone list (everything else). -/
def buildBucketsAux : List Position → List (String × List Position) →
    List Position → List (String × List Position) × List Position
  | [], m, s => (m, s)
  | p :: ps, m, s =>
    if p.type = "OPTN" then buildBucketsAux ps (mapInsert m (strategyKey p) p) s
    else buildBucketsAux ps m (s ++ [p])

def buildBuckets (positions : List Position) :
    List (String × List Position) × List Position :=
  buildBucketsAux positions [] []

/-- A single-leg display row: `{ ...pos, strategyName, spec, _legs: [pos] }`. -/
def mkSingleRow (p : Position) : DisplayRow :=
  { toPosition := p, strategyName := some (singleLegName p),
    spec := some (singleLegSpec p), legsRef := some [p] }

/-- The per-bucket emission of `groupIntoStrategies`: single leg, whole-group
classification, split fallback, or one single-leg row per leg. -/
def emitBucket (legs : List Position) : List DisplayRow :=
  if legs.length = 1 then [mkSingleRow legs.headI]
  else
    match identifyStrategyName legs with
    | some name => [buildStrategyRow legs name]
    | none =>
      match trySplitIntoPairs legs with
      | some ((p1, n1), (p2, n2)) => [buildStrategyRow p1 n1, buildStrategyRow p2 n2]
      | none => legs.map mkSingleRow

/-- `groupIntoStrategies` of `strategies.ts`. -/
def groupIntoStrategies (positions : List Position) : List DisplayRow :=
  let bs := buildBuckets positions
  bs.2.map mkSingleRow ++ bs.1.flatMap fun kv => emitBucket kv.2

/-- Contribution of a display row to the partition count: `legCount`, or 1
when the row is a single-leg row (no `legCount`). -/
def rowWeight (r : DisplayRow) : ℕ := r.legCount.getD 1

/-- Grouping of option positions by `strategyKey`, used to state the output
order of `groupIntoStrategies`. -/
def groupByKey (qs : List Position) : List (String × List Position) :=
  qs.foldl (fun m p => mapInsert m (strategyKey p) p) []

/-- Proleptic-Gregorian day count of a civil date (days since 1970-01-01),
the standard era-based algorithm.  Models `new Date(y, m-1, d).getTime()`
at local midnight, measured in days. -/
def daysFromCivil (y m d : ℤ) : ℤ :=
  let y' := if m ≤ 2 then y - 1 else y
  let era := (if 0 ≤ y' then y' else y' - 399) / 400
  let yoe := y' - era * 400
  let mp := (m + 9) % 12
  let doy := (153 * mp + 2) / 5 + d - 1
  let doe := yoe * 365 + yoe / 4 - yoe / 100 + doy
  era * 146097 + doe - 719468

/-- `computeOrderDte` of the positions-grid module.  `today` is the current
local date as a day count (the source takes it from the clock:
`new Date()` truncated to midnight); `!leg.expiryYear` is falsy for both
`null` and `0`; the millisecond difference divided by 86,400,000 and
rounded is exactly the day-count difference (DST offsets are absorbed by
`Math.round`). -/
def computeOrderDte (today : ℤ) (leg : OrderLeg) : Option ℤ :=
  match leg.expiryYear, leg.expiryMonth, leg.expiryDay with
  | some y, some mo, some d =>
    if y = 0 ∨ mo = 0 ∨ d = 0 then none
    else some (daysFromCivil y mo d - today)
  | _, _, _ => none

/-- `legKey` of the positions-grid module: the delimiter-joined composite
key, with `null` rendered as the empty string (`?? ""`). -/
def legKey (symbol : String) (qty : ℚ) (strike : Option ℚ) (dte : Option ℤ) : String :=
  symbol ++ "|" ++ jsNumToString qty ++ "|" ++
    (match strike with | none => "" | some s => jsNumToString s) ++ "|" ++
    (match dte with | none => "" | some n => jsIntToString n)

def EXIT_ACTIONS_LONG : List String := ["SELL", "SELL_CLOSE"]

def EXIT_ACTIONS_SHORT : List String := ["BUY", "BUY_CLOSE", "BUY_TO_COVER"]

/-- `isExitOrder` of the positions-grid module.  `localeCompare` is modelled
by code-unit string order (they agree on plain ASCII tickers); the
`every((oLeg, i) => …)` over two equal-length sorted arrays is a `zip`. -/
def isExitOrder (today : ℤ) (posLegs : List Position) (order : Order) : Bool :=
  if order.legs.length ≠ posLegs.length then false
  else
    let sortedOrder := jsSort (fun a b => decide (a.symbol ≤ b.symbol)) order.legs
    let sortedPos := jsSort (fun a b => decide (a.symbol ≤ b.symbol)) posLegs
    (sortedOrder.zip sortedPos).all fun op =>
      let oLeg := op.1
      let pLeg := op.2
      let keyMatch :=
        legKey oLeg.symbol oLeg.orderedQuantity oLeg.strikePrice (computeOrderDte today oLeg) =
          legKey pLeg.symbol ((pLeg.quantity.natAbs : ℚ)) pLeg.strikePrice pLeg.dte
      if keyMatch then
        let exitActions := if 0 < pLeg.quantity then EXIT_ACTIONS_LONG else EXIT_ACTIONS_SHORT
        exitActions.contains oLeg.orderAction
      else false

/-- `computeExitLabel` of the positions-grid module. -/
def computeExitLabel (order : Order) (row : DisplayRow) : String :=
  let mult : ℚ := if row.type = "OPTN" then 100 else 1
  let exitValue := order.limitPrice * (row.quantity.natAbs : ℚ) * mult
  let cost := |row.totalCost|
  if cost = 0 then "@" ++ jsToFixed2 order.limitPrice
  else
    let sign : ℚ := if 0 ≤ row.totalCost then 1 else -1
    let profit := sign * (exitValue - cost)
    let pct := jsRound (profit / cost * 100)
    jsIntToString pct ++ "% @" ++ jsToFixed2 order.limitPrice

/-- Remove the first element satisfying `p` (the `findIndex` + `splice` of
`matchOrdersToRows`), returning it and the remaining pool. -/
def findRemove (p : α → Bool) : List α → Option (α × List α)
  | [] => none
  | x :: xs =>
    if p x then some (x, xs)
    else (findRemove p xs).map fun yl => (yl.1, x :: yl.2)

/-- The body of `matchOrdersToRows`'s `rows.map` callback, threading the
mutable `remaining` pool explicitly. -/
def matchRowStep (today : ℤ) (remaining : List Order) (row : DisplayRow) :
    DisplayRow × List Order :=
  match row.legsRef with
  | none => (row, remaining)
  | some legs =>
    match findRemove (fun o => isExitOrder today legs o) remaining with
    | none => (row, remaining)
    | some (o, rest) =>
      ({ row with exitLabel := some (computeExitLabel o row),
                  exitOrderId := o.orderId }, rest)

/-- `matchOrdersToRows` of the positions-grid module: greedy, exclusive
matching of rows (in order) against the shrinking order pool. -/
def matchOrdersToRows (today : ℤ) :
    List DisplayRow → List Order → List DisplayRow × List Order
  | [], remaining => ([], remaining)
  | r :: rs, remaining =>
    let first := matchRowStep today remaining r
    let rest := matchOrdersToRows today rs first.2
    (first.1 :: rest.1, rest.2)

/-- `computeLimitPrice` of the exit-cell module, over `ℚ` (which agrees with
the JS float path whenever `quantity ≠ 0`; division by zero is modelled
separately by `computeLimitPriceJs`). -/
def computeLimitPrice (totalCost quantity profitPct : ℚ) : ℚ :=
  let mult : ℚ := 100
  let absCost := |totalCost|
  let exitValue :=
    if 0 ≤ totalCost then absCost * (1 + profitPct / 100)
    else absCost * (1 - profitPct / 100)
  let raw := exitValue / (|quantity| * mult)
  (jsRound (raw * 20) : ℚ) / 20

/-- A JS double as the exit-price calculator can observe it: a finite
rational or one of the special values.  Finite overflow to infinity is not
modelled (irrelevant at these magnitudes). -/
inductive JsNum where
  | fin (q : ℚ)
  | posInf
  | negInf
  | nan
deriving Repr, DecidableEq

def JsNum.isFinite : JsNum → Bool
  | .fin _ => true
  | _ => false

/-- IEEE-754 division as JS performs it, for the cases reachable here
(`-0` is identified with `0`). -/
def JsNum.div : JsNum → JsNum → JsNum
  | .nan, _ => .nan
  | _, .nan => .nan
  | .fin a, .fin b =>
    if b = 0 then (if a = 0 then .nan else if 0 < a then .posInf else .negInf)
    else .fin (a / b)
  | .fin _, .posInf => .fin 0
  | .fin _, .negInf => .fin 0
  | .posInf, .fin b => if 0 ≤ b then .posInf else .negInf
  | .negInf, .fin b => if 0 ≤ b then .negInf else .posInf
  | .posInf, _ => .nan
  | .negInf, _ => .nan

/-- IEEE-754 multiplication as JS performs it, for the cases reachable here. -/
def JsNum.mul : JsNum → JsNum → JsNum
  | .nan, _ => .nan
  | _, .nan => .nan
  | .fin a, .fin b => .fin (a * b)
  | .posInf, .fin b => if b = 0 then .nan else if 0 < b then .posInf else .negInf
  | .fin a, .posInf => if a = 0 then .nan else if 0 < a then .posInf else .negInf
  | .negInf, .fin b => if b = 0 then .nan else if 0 < b then .negInf else .posInf
  | .fin a, .negInf => if a = 0 then .nan else if 0 < a then .negInf else .posInf
  | .posInf, .posInf => .posInf
  | .posInf, .negInf => .negInf
  | .negInf, .posInf => .negInf
  | .negInf, .negInf => .posInf

/-- `Math.round` on a JS double: the identity on the special values. -/
def JsNum.roundJs : JsNum → JsNum
  | .fin q => .fin (jsRound q : ℚ)
  | x => x

/-- `computeLimitPrice` with JS special-value semantics at the division:
the inputs are ordinary finite numbers, and the division is the only
operation on this path that can produce a special value. -/
def computeLimitPriceJs (totalCost quantity profitPct : ℚ) : JsNum :=
  let absCost := |totalCost|
  let exitValue :=
    if 0 ≤ totalCost then absCost * (1 + profitPct / 100)
    else absCost * (1 - profitPct / 100)
  let raw := JsNum.div (.fin exitValue) (.fin (|quantity| * 100))
  JsNum.div (JsNum.roundJs (JsNum.mul raw (.fin 20))) (.fin 20)

/-- The 4-leg classifier as the spec words it (§4.1, §9): identical to the
4-leg branch of `identifyStrategyName` except that strikes are sorted in
explicit numeric ascending order, as the spec mandates.  Stated only for
comparison against the source's default (lexicographic) sort. -/
def identify4LegNumericSort (legs : List Position) : Option String :=
  let calls := legs.filter fun l => l.callPut = some "CALL"
  let puts := legs.filter fun l => l.callPut = some "PUT"
  if legs.length = 4 ∧ calls.length = 2 ∧ puts.length = 2 then
    let callStrikes :=
      jsSort (fun a b : Option ℚ => decide (a.getD 0 ≤ b.getD 0)) (calls.map fun l => l.strikePrice)
    let putStrikes :=
      jsSort (fun a b : Option ℚ => decide (a.getD 0 ≤ b.getD 0)) (puts.map fun l => l.strikePrice)
    if callStrikes.getD 0 none = putStrikes.getD 0 none ∧
        callStrikes.getD 1 none = putStrikes.getD 1 none then some "Box Spread"
    else if callStrikes.getD 0 none = putStrikes.getD 1 none ∨
        putStrikes.getD 0 none = callStrikes.getD 1 none then some "Iron Butterfly"
    else some "Iron Condor"
  else none

/-- Test fixture: an option/equity position with the fields the classifier
and reconciler inspect. -/
def testPos (ty : String) (cp : Option String) (strike : Option ℚ) (q : ℤ)
    (cost : ℚ) (dteDays : Option ℤ) : Position :=
  { symbol := "SYM", baseSymbol := "BASE", type := ty, strikePrice := strike,
    callPut := cp, quantity := q, marketValue := 0, totalCost := cost,
    daysGain := 0, dayGainPct := 0, totalGain := 0, totalGainPct := 0,
    dte := dteDays, delta := none, gamma := none, theta := none, vega := none,
    rho := none, iv := none, dateAcquired := some 1, expiryYear := none,
    expiryMonth := none, expiryDay := none }

/-- Four legs (2 CALL + 2 PUT) on which the default lexicographic strike sort
and a numeric strike sort classify differently: CALL strikes {20, 100},
PUT strikes {100, 300}. -/
def c1Legs : List Position :=
  [testPos "OPTN" (some "CALL") (some 20) 1 0 (some 30),
   testPos "OPTN" (some "CALL") (some 100) (-1) 0 (some 30),
   testPos "OPTN" (some "PUT") (some 100) 1 0 (some 30),
   testPos "OPTN" (some "PUT") (some 300) (-1) 0 (some 30)]

theorem jsRound_eq (q : ℚ) : jsRound q = ⌊q + 1 / 2⌋ := by
  rw [jsRound, Rat.floor_def', Rat.floor_def]

theorem abs_jsRound_sub_le (q : ℚ) : |(jsRound q : ℚ) - q| ≤ 1 / 2 := by
  rw [jsRound_eq]
  have h1 : ((⌊q + 1 / 2⌋ : ℤ) : ℚ) ≤ q + 1 / 2 := Int.floor_le _
  have h2 : q + 1 / 2 < (⌊q + 1 / 2⌋ : ℚ) + 1 := Int.lt_floor_add_one _
  rw [abs_le]
  constructor <;> linarith

/-- C1: the claim says the 4-leg branch of `identifyStrategyName` sorts call
and put strikes in numeric ascending order.  It does not: the source uses the
comparator-less `Array.prototype.sort`, which sorts by string rendering.  On
CALL strikes {20, 100} and PUT strikes {100, 300} the lexicographic sort
yields callStrikes = [100, 20], so the shared interior strike 100 is missed
and the code answers "Iron Condor", while the numeric sort mandated by the
spec (modelled by `identify4LegNumericSort`) answers "Iron Butterfly". -/
theorem identifyStrategyName_lexicographic_vs_numeric :
    identifyStrategyName c1Legs = some "Iron Condor" ∧
    identify4LegNumericSort c1Legs = some "Iron Butterfly" := by
  constructor <;> with_unfolding_all rfl

/-- C5: on a classified group the synthesized row's quantity has the
magnitude of the first leg's quantity; for Put Vertical, Call Vertical and
Box Spread its sign comes from the aggregated `totalCost` (nonnegative cost
gives the positive value, negative cost the negated one), and for every
other strategy name it is the plain absolute value. -/
theorem buildStrategyRow_quantity (l : Position) (rest : List Position) (name : String) :
    (buildStrategyRow (l :: rest) name).quantity =
      (if name = "Put Vertical" ∨ name = "Call Vertical" ∨ name = "Box Spread" then
        (if 0 ≤ ((l :: rest).map Position.totalCost).sum then (l.quantity.natAbs : ℤ)
         else -(l.quantity.natAbs : ℤ))
       else (l.quantity.natAbs : ℤ)) ∧
    (buildStrategyRow (l :: rest) name).quantity.natAbs = l.quantity.natAbs := by
  refine ⟨rfl, ?_⟩
  show (if name = "Put Vertical" ∨ name = "Call Vertical" ∨ name = "Box Spread" then
        (if 0 ≤ ((l :: rest).map Position.totalCost).sum then (l.quantity.natAbs : ℤ)
         else -(l.quantity.natAbs : ℤ))
       else (l.quantity.natAbs : ℤ)).natAbs = l.quantity.natAbs
  split_ifs <;> simp [Int.natAbs_abs]

/-- C7: `computeExitLabel` formats "@limitPrice" when |totalCost| is zero,
and otherwise "pct% @limitPrice" where pct is the rounded signed profit
percentage: sign · (limitPrice · |quantity| · multiplier − |totalCost|)
divided by |totalCost|, times 100, with multiplier 100 exactly for OPTN
rows and the limit price rendered to two decimals. -/
theorem computeExitLabel_spec (order : Order) (row : DisplayRow) :
    computeExitLabel order row =
      if |row.totalCost| = 0 then "@" ++ jsToFixed2 order.limitPrice
      else
        jsIntToString (jsRound ((if 0 ≤ row.totalCost then (1 : ℚ) else -1) *
            (order.limitPrice * (row.quantity.natAbs : ℚ) *
              (if row.type = "OPTN" then (100 : ℚ) else 1) - |row.totalCost|) /
            |row.totalCost| * 100)) ++ "% @" ++ jsToFixed2 order.limitPrice := rfl

/-- C8: for nonzero quantity, `computeLimitPrice` is exactly
round(raw · 20)/20 for raw = exitValue / (|quantity| · 100), where exitValue
scales |totalCost| up by profitPct for debit positions and down for credit
positions; consequently the result is an integer multiple of 0.05 within
1/40 of the raw price. -/
theorem computeLimitPrice_spec (totalCost quantity profitPct : ℚ)
    (hq : quantity ≠ 0) :
    computeLimitPrice totalCost quantity profitPct =
      (jsRound ((if 0 ≤ totalCost then |totalCost| * (1 + profitPct / 100)
                 else |totalCost| * (1 - profitPct / 100)) / (|quantity| * 100) * 20) : ℚ) / 20 ∧
    (∃ n : ℤ, computeLimitPrice totalCost quantity profitPct = (n : ℚ) / 20) ∧
    |computeLimitPrice totalCost quantity profitPct -
        (if 0 ≤ totalCost then |totalCost| * (1 + profitPct / 100)
         else |totalCost| * (1 - profitPct / 100)) / (|quantity| * 100)| ≤ 1 / 40 := by
  refine ⟨rfl, ⟨_, rfl⟩, ?_⟩
  set raw := (if 0 ≤ totalCost then |totalCost| * (1 + profitPct / 100)
      else |totalCost| * (1 - profitPct / 100)) / (|quantity| * 100) with hraw
  have h := abs_jsRound_sub_le (raw * 20)
  have hcl : computeLimitPrice totalCost quantity profitPct = (jsRound (raw * 20) : ℚ) / 20 := rfl
  rw [hcl]
  have : (jsRound (raw * 20) : ℚ) / 20 - raw = ((jsRound (raw * 20) : ℚ) - raw * 20) / 20 := by
    ring
  rw [this, abs_div]
  have h20 : |(20 : ℚ)| = 20 := by norm_num
  rw [h20]
  linarith [h]

theorem computeLimitPrice_spec_witness :
    (2 : ℚ) ≠ 0 ∧ computeLimitPrice 200 2 30 = 13 / 10 ∧
    (∃ n : ℤ, computeLimitPrice 200 2 30 = (n : ℚ) / 20) := by
  refine ⟨by norm_num, ?_, (computeLimitPrice_spec 200 2 30 (by norm_num)).2.1⟩
  with_unfolding_all rfl

/-- C10: with quantity 0 the divisor |quantity| · 100 is 0 and JS float
division yields NaN or ±Infinity, which round/scale back to themselves:
`computeLimitPrice` never returns a finite number at quantity 0. -/
theorem computeLimitPriceJs_zero_quantity (totalCost profitPct : ℚ) :
    (computeLimitPriceJs totalCost 0 profitPct).isFinite = false := by
  unfold computeLimitPriceJs
  simp only [abs_zero, zero_mul]
  rcases lt_trichotomy (if 0 ≤ totalCost then |totalCost| * (1 + profitPct / 100)
      else |totalCost| * (1 - profitPct / 100)) 0 with h | h | h
  · simp [JsNum.div, JsNum.mul, JsNum.roundJs, JsNum.isFinite, h.ne, not_lt.mpr h.le]
  · simp [JsNum.div, JsNum.mul, JsNum.roundJs, JsNum.isFinite, h]
  · simp [JsNum.div, JsNum.mul, JsNum.roundJs, JsNum.isFinite, h, h.ne.symm]

/-- Total number of positions stored in the bucket map. -/
def bucketLen (m : List (String × List Position)) : ℕ :=
  (m.map fun kv => kv.2.length).sum

theorem bucketLen_mapInsert (m : List (String × List Position)) (k : String) (p : Position) :
    bucketLen (mapInsert m k p) = bucketLen m + 1 := by
  induction m with
  | nil => simp [mapInsert, bucketLen]
  | cons kv rest ih =>
    obtain ⟨k', ps⟩ := kv
    by_cases h : k' = k <;> simp [mapInsert, bucketLen, h] <;>
      simp [bucketLen] at ih <;> omega

theorem buildBucketsAux_len (ps : List Position) :
    ∀ m s, bucketLen (buildBucketsAux ps m s).1 + (buildBucketsAux ps m s).2.length
      = bucketLen m + s.length + ps.length := by
  induction ps with
  | nil => intro m s; simp [buildBucketsAux]
  | cons p ps ih =>
    intro m s
    by_cases h : p.type = "OPTN" <;>
      simp only [buildBucketsAux, h, if_true, if_false, List.length_cons]
    · rw [ih, bucketLen_mapInsert]; omega
    · rw [ih]
      simp only [List.length_append, List.length_cons, List.length_nil]
      omega

theorem trySplitIntoPairs_shape {legs p1 p2 : List Position} {n1 n2 : String}
    (h : trySplitIntoPairs legs = some ((p1, n1), (p2, n2))) :
    legs.length = 4 ∧ p1.length = 2 ∧ p2.length = 2 := by
  match legs with
  | [] => simp [trySplitIntoPairs] at h
  | [_] => simp [trySplitIntoPairs] at h
  | [_, _] => simp [trySplitIntoPairs] at h
  | [_, _, _] => simp [trySplitIntoPairs] at h
  | _ :: _ :: _ :: _ :: _ :: _ => simp [trySplitIntoPairs] at h
  | [a, b, c, d] =>
    simp only [trySplitIntoPairs] at h
    split at h
    · simp only [Option.some.injEq, Prod.mk.injEq] at h
      obtain ⟨⟨hp1, -⟩, hp2, -⟩ := h
      subst hp1; subst hp2
      exact ⟨rfl, rfl, rfl⟩
    · split at h
      · simp only [Option.some.injEq, Prod.mk.injEq] at h
        obtain ⟨⟨hp1, -⟩, hp2, -⟩ := h
        subst hp1; subst hp2
        exact ⟨rfl, rfl, rfl⟩
      · split at h
        · simp only [Option.some.injEq, Prod.mk.injEq] at h
          obtain ⟨⟨hp1, -⟩, hp2, -⟩ := h
          subst hp1; subst hp2
          exact ⟨rfl, rfl, rfl⟩
        · simp at h

theorem rowWeight_mkSingleRow (p : Position) : rowWeight (mkSingleRow p) = 1 := rfl

theorem rowWeight_buildStrategyRow (legs : List Position) (name : String) :
    rowWeight (buildStrategyRow legs name) = legs.length := rfl

theorem sum_map_one {α : Type} (l : List α) : (l.map fun _ => (1 : ℕ)).sum = l.length := by
  induction l with
  | nil => rfl
  | cons x xs ih =>
    simp only [List.map_cons, List.sum_cons, ih, List.length_cons]
    omega

theorem emitBucket_weight (legs : List Position) :
    ((emitBucket legs).map rowWeight).sum = legs.length := by
  unfold emitBucket
  by_cases h1 : legs.length = 1
  · simp [h1, rowWeight_mkSingleRow]
  · simp only [h1, if_false]
    cases hname : identifyStrategyName legs with
    | some name => simp [rowWeight_buildStrategyRow]
    | none =>
      cases hsp : trySplitIntoPairs legs with
      | some pr =>
        obtain ⟨⟨p1, n1⟩, p2, n2⟩ := pr
        obtain ⟨hl, hp1, hp2⟩ := trySplitIntoPairs_shape hsp
        simp [rowWeight_buildStrategyRow, hl, hp1, hp2]
      | none =>
        rw [List.map_map]
        have : (rowWeight ∘ mkSingleRow) = fun _ => (1 : ℕ) := by
          funext p; exact rowWeight_mkSingleRow p
        rw [this, sum_map_one]

/-- C2: partition invariant — the weights of the rows emitted by
`groupIntoStrategies` (legCount for strategy rows, 1 for single-leg rows)
sum to the number of input positions: no position is lost or duplicated. -/
theorem groupIntoStrategies_partition (positions : List Position) :
    ((groupIntoStrategies positions).map rowWeight).sum = positions.length := by
  unfold groupIntoStrategies
  rw [List.map_append, List.sum_append]
  have hsingles : (((buildBuckets positions).2.map mkSingleRow).map rowWeight).sum
      = (buildBuckets positions).2.length := by
    rw [List.map_map]
    have : (rowWeight ∘ mkSingleRow) = fun _ => (1 : ℕ) := by
      funext p; exact rowWeight_mkSingleRow p
    rw [this, sum_map_one]
  have hbuckets : ∀ m : List (String × List Position),
      ((m.flatMap fun kv => emitBucket kv.2).map rowWeight).sum = bucketLen m := by
    intro m
    induction m with
    | nil => rfl
    | cons kv rest ih =>
      simp only [List.flatMap_cons, List.map_append, List.sum_append, ih,
        emitBucket_weight, bucketLen, List.map_cons, List.sum_cons]
  rw [hsingles, hbuckets]
  have h := buildBucketsAux_len positions [] []
  have h0 : bucketLen ([] : List (String × List Position)) = 0 := rfl
  rw [h0] at h
  simp only [List.length_nil] at h
  simp only [buildBuckets]
  omega

theorem buildBucketsAux_fst (ps : List Position) :
    ∀ m s, (buildBucketsAux ps m s).1 =
      (ps.filter fun p => decide (p.type = "OPTN")).foldl
        (fun acc p => mapInsert acc (strategyKey p) p) m := by
  induction ps with
  | nil => intro m s; rfl
  | cons p ps ih =>
    intro m s
    by_cases h : p.type = "OPTN" <;> simp [buildBucketsAux, h, ih]

theorem buildBucketsAux_snd (ps : List Position) :
    ∀ m s, (buildBucketsAux ps m s).2 =
      s ++ ps.filter fun p => !decide (p.type = "OPTN") := by
  induction ps with
  | nil => intro m s; simp [buildBucketsAux]
  | cons p ps ih =>
    intro m s
    by_cases h : p.type = "OPTN" <;> simp [buildBucketsAux, h, ih]

/-- The first-seen-order deduplication of a list of keys: the order in which
a JS `Map` built by repeated insertion iterates its keys. -/
def firstSeen : List String → List String
  | [] => []
  | k :: ks => k :: firstSeen (ks.filter fun k2 => !decide (k2 = k))
termination_by l => l.length
decreasing_by
  simp_wf
  exact Nat.lt_succ_of_le (List.length_filter_le _ _)

theorem keys_mapInsert (m : List (String × List Position)) (k : String) (p : Position) :
    (mapInsert m k p).map Prod.fst =
      if k ∈ m.map Prod.fst then m.map Prod.fst else m.map Prod.fst ++ [k] := by
  induction m with
  | nil => simp [mapInsert]
  | cons kv rest ih =>
    obtain ⟨k', ps⟩ := kv
    by_cases h : k' = k
    · simp [mapInsert, h]
    · by_cases h2 : k ∈ rest.map Prod.fst <;>
        simp [mapInsert, h, ih, h2, Ne.symm h]

theorem foldl_mapInsert_keys (qs : List Position) :
    ∀ m, ((qs.foldl (fun acc p => mapInsert acc (strategyKey p) p) m).map Prod.fst)
      = m.map Prod.fst ++
          firstSeen ((qs.map strategyKey).filter fun k => !decide (k ∈ m.map Prod.fst)) := by
  induction qs with
  | nil => intro m; simp [firstSeen]
  | cons q qs ih =>
    intro m
    simp only [List.foldl_cons, List.map_cons, List.filter_cons]
    by_cases h : strategyKey q ∈ m.map Prod.fst
    · rw [ih, keys_mapInsert, if_pos h]
      have hdec : (!decide (strategyKey q ∈ m.map Prod.fst)) = false := by simp [h]
      rw [hdec]
      simp
    · rw [ih, keys_mapInsert, if_neg h]
      have hdec : (!decide (strategyKey q ∈ m.map Prod.fst)) = true := by simp [h]
      rw [hdec]
      simp only [if_true]
      have hff : ((qs.map strategyKey).filter fun k =>
            !decide (k ∈ m.map Prod.fst ++ [strategyKey q])) =
          (((qs.map strategyKey).filter fun k => !decide (k ∈ m.map Prod.fst)).filter
            fun k2 => !decide (k2 = strategyKey q)) := by
        rw [List.filter_filter]
        refine List.filter_congr ?_
        intro x _
        by_cases h1 : x = strategyKey q <;> by_cases h2 : x ∈ m.map Prod.fst <;>
          simp [h1, h2]
      rw [hff]
      conv_rhs => rw [firstSeen]
      simp

theorem groupByKey_keys (qs : List Position) :
    (groupByKey qs).map Prod.fst = firstSeen (qs.map strategyKey) := by
  have h := foldl_mapInsert_keys qs []
  simpa [groupByKey] using h

/-- C9: the rows of `groupIntoStrategies` are exactly the single-leg rows of
the non-OPTN positions, in input order, followed by the rows of the OPTN
buckets; the buckets are keyed by `strategyKey` and iterate in first-seen
key order (`firstSeen` of the key sequence). -/
theorem groupIntoStrategies_output_order (positions : List Position) :
    groupIntoStrategies positions =
      ((positions.filter fun p => !decide (p.type = "OPTN")).map mkSingleRow) ++
        ((groupByKey (positions.filter fun p => decide (p.type = "OPTN"))).flatMap
          fun kv => emitBucket kv.2) ∧
    (groupByKey (positions.filter fun p => decide (p.type = "OPTN"))).map Prod.fst =
      firstSeen ((positions.filter fun p => decide (p.type = "OPTN")).map strategyKey) := by
  refine ⟨?_, groupByKey_keys _⟩
  unfold groupIntoStrategies buildBuckets
  simp only [buildBucketsAux_snd, buildBucketsAux_fst]
  simp [groupByKey]

/-- C6: when a 4-leg bucket fails whole-group classification, the engine
tries the pairings (0,1)&(2,3), (0,2)&(1,3), (0,3)&(1,2) in that order,
accepts the first in which both halves classify under the 2-leg rules
(emitting the two strategy rows), and otherwise emits the four legs as
individual single-leg rows. -/
theorem emitBucket_split_fallback (a b c d : Position)
    (h : identifyStrategyName [a, b, c, d] = none) :
    trySplitIntoPairs [a, b, c, d] =
      (([([a, b], [c, d]), ([a, c], [b, d]), ([a, d], [b, c])].find? fun pr =>
          (identifyStrategyName pr.1).isSome && (identifyStrategyName pr.2).isSome).map
        fun pr => ((pr.1, (identifyStrategyName pr.1).getD ""),
                   (pr.2, (identifyStrategyName pr.2).getD ""))) ∧
    emitBucket [a, b, c, d] =
      (match trySplitIntoPairs [a, b, c, d] with
       | some ((p1, n1), (p2, n2)) => [buildStrategyRow p1 n1, buildStrategyRow p2 n2]
       | none => [mkSingleRow a, mkSingleRow b, mkSingleRow c, mkSingleRow d]) := by
  constructor
  · cases h1 : identifyStrategyName [a, b] <;> cases h2 : identifyStrategyName [c, d] <;>
      cases h3 : identifyStrategyName [a, c] <;> cases h4 : identifyStrategyName [b, d] <;>
        cases h5 : identifyStrategyName [a, d] <;> cases h6 : identifyStrategyName [b, c] <;>
          simp [trySplitIntoPairs, List.find?, h1, h2, h3, h4, h5, h6]
  · cases hsp : trySplitIntoPairs [a, b, c, d] with
    | some pr =>
      obtain ⟨⟨p1, n1⟩, p2, n2⟩ := pr
      simp [emitBucket, h, hsp]
    | none => simp [emitBucket, h, hsp]

def c6a : Position := testPos "OPTN" (some "CALL") (some 100) 1 0 (some 30)
def c6b : Position := testPos "OPTN" (some "CALL") (some 110) 1 0 (some 30)
def c6c : Position := testPos "OPTN" (some "CALL") (some 120) 1 0 (some 30)
def c6d : Position := testPos "OPTN" (some "CALL") (some 130) 1 0 (some 30)

theorem emitBucket_split_fallback_witness :
    identifyStrategyName [c6a, c6b, c6c, c6d] = none ∧
    emitBucket [c6a, c6b, c6c, c6d] =
      [mkSingleRow c6a, mkSingleRow c6b, mkSingleRow c6c, mkSingleRow c6d] := by
  refine ⟨by with_unfolding_all rfl, ?_⟩
  have h := emitBucket_split_fallback c6a c6b c6c c6d (by with_unfolding_all rfl)
  rw [h.2]
  with_unfolding_all rfl

theorem list_all_congr {α : Type} {l : List α} {p q : α → Bool}
    (h : ∀ x ∈ l, p x = q x) : l.all p = l.all q := by
  induction l with
  | nil => rfl
  | cons x xs ih =>
    simp only [List.all_cons, h x (by simp)]
    rw [ih fun y hy => h y (by simp [hy])]

theorem mem_jsSortInsert {α : Type} {le : α → α → Bool} {x y : α} {l : List α} :
    y ∈ jsSortInsert le x l ↔ y = x ∨ y ∈ l := by
  induction l with
  | nil => simp [jsSortInsert]
  | cons z zs ih =>
    simp only [jsSortInsert]
    split_ifs with hle <;> simp only [List.mem_cons, ih] <;> tauto

theorem mem_jsSort {α : Type} {le : α → α → Bool} {x : α} {l : List α} :
    x ∈ jsSort le l ↔ x ∈ l := by
  have haux : ∀ acc, x ∈ l.foldl (fun acc y => jsSortInsert le y acc) acc ↔
      x ∈ acc ∨ x ∈ l := by
    induction l with
    | nil => intro acc; simp
    | cons y ys ih =>
      intro acc
      simp only [List.foldl_cons]
      rw [ih]
      simp only [mem_jsSortInsert, List.mem_cons]
      tauto
  simpa [jsSort] using haux []

theorem isExitOrder_dte_congr (t1 t2 : ℤ) (posLegs : List Position) (o : Order)
    (h : ∀ l ∈ o.legs, computeOrderDte t1 l = computeOrderDte t2 l) :
    isExitOrder t1 posLegs o = isExitOrder t2 posLegs o := by
  unfold isExitOrder
  by_cases hl : o.legs.length ≠ posLegs.length
  · rw [if_pos hl, if_pos hl]
  · rw [if_neg hl, if_neg hl]
    apply list_all_congr
    intro op hop
    obtain ⟨o1, p1⟩ := op
    obtain ⟨ho, -⟩ := List.of_mem_zip hop
    have ho' : o1 ∈ o.legs := mem_jsSort.mp ho
    simp only [h o1 ho']

theorem findRemove_congr {α : Type} {p q : α → Bool} (l : List α)
    (h : ∀ x ∈ l, p x = q x) : findRemove p l = findRemove q l := by
  induction l with
  | nil => rfl
  | cons x xs ih =>
    simp only [findRemove, h x (by simp)]
    rw [ih fun y hy => h y (by simp [hy])]

theorem findRemove_some_subset {α : Type} {p : α → Bool} {l l' : List α} {x : α}
    (h : findRemove p l = some (x, l')) : ∀ y ∈ l', y ∈ l := by
  induction l generalizing l' with
  | nil => simp [findRemove] at h
  | cons z zs ih =>
    simp only [findRemove] at h
    split at h
    · injection h with hp
      injection hp with h1 h2
      subst h1; subst h2
      intro y hy
      exact List.mem_cons_of_mem _ hy
    · cases hfr : findRemove p zs with
      | none => rw [hfr] at h; simp at h
      | some pair =>
        obtain ⟨xx, rest⟩ := pair
        rw [hfr] at h
        simp only [Option.map] at h
        injection h with hp
        injection hp with h1 h2
        subst h1; subst h2
        intro y hy
        rcases List.mem_cons.mp hy with rfl | hy2
        · exact List.mem_cons_self ..
        · exact List.mem_cons_of_mem _ (ih hfr y hy2)

theorem matchRowStep_dte_congr (t1 t2 : ℤ) (remaining : List Order) (row : DisplayRow)
    (h : ∀ o ∈ remaining, ∀ l ∈ o.legs, computeOrderDte t1 l = computeOrderDte t2 l) :
    matchRowStep t1 remaining row = matchRowStep t2 remaining row := by
  unfold matchRowStep
  cases hlr : row.legsRef with
  | none => rfl
  | some legs =>
    dsimp only
    rw [findRemove_congr remaining fun o ho => isExitOrder_dte_congr t1 t2 legs o (h o ho)]

theorem matchRowStep_remaining_subset (t : ℤ) (remaining : List Order) (row : DisplayRow) :
    ∀ o ∈ (matchRowStep t remaining row).2, o ∈ remaining := by
  unfold matchRowStep
  cases hlr : row.legsRef with
  | none => intro o ho; exact ho
  | some legs =>
    dsimp only
    cases hfr : findRemove (fun o => isExitOrder t legs o) remaining with
    | none => intro o ho; exact ho
    | some pair =>
      obtain ⟨oo, rest⟩ := pair
      dsimp only
      intro o ho
      exact findRemove_some_subset hfr o ho

/-- C4 (amended): the reconciliation outcome depends on the invocation date
only through `computeOrderDte` of the order legs: whenever two dates give
every order leg the same computed dte, `matchOrdersToRows` returns
identical annotated rows and identical unmatched pools. -/
theorem matchOrdersToRows_dte_congr (t1 t2 : ℤ) (rows : List DisplayRow)
    (orders : List Order)
    (h : ∀ o ∈ orders, ∀ l ∈ o.legs, computeOrderDte t1 l = computeOrderDte t2 l) :
    matchOrdersToRows t1 rows orders = matchOrdersToRows t2 rows orders := by
  induction rows generalizing orders with
  | nil => rfl
  | cons r rs ih =>
    simp only [matchOrdersToRows]
    rw [matchRowStep_dte_congr t1 t2 orders r h]
    rw [ih (matchRowStep t2 orders r).2
      fun o ho l hl => h o (matchRowStep_remaining_subset t2 orders r o ho) l hl]

def c3EqPos : Position := testPos "EQ" none none 10 40 none

def c3EqRow : DisplayRow := mkSingleRow c3EqPos

def c3OrderLeg : OrderLeg :=
  { symbol := "SYM", orderedQuantity := 10, orderAction := "SELL",
    strikePrice := none, expiryYear := none, expiryMonth := none,
    expiryDay := none }

def c3Order : Order :=
  { orderId := some 7, limitPrice := 5, priceType := "LIMIT", status := "OPEN",
    baseSymbol := "BASE", legs := [c3OrderLeg] }

/-- C3 (counterexample): a display row whose only leg is an equity (no OPTN
legs) does match an order — `isExitOrder` never checks the leg type, so an
equity SELL order with matching symbol, quantity, empty strike and empty dte
claims the row: the row comes back annotated with an exit label and the
order is removed from the pool. -/
theorem equity_row_matches_order :
    (∀ l ∈ c3EqRow.legsRef.getD [], l.type ≠ "OPTN") ∧
    (matchOrdersToRows 0 [c3EqRow] [c3Order]).2 = [] ∧
    ((matchOrdersToRows 0 [c3EqRow] [c3Order]).1.map fun r => r.exitLabel) =
      [some "25% @5.00"] := by
  refine ⟨?_, ?_, ?_⟩
  · intro l hl
    have hleq : l = c3EqPos := by
      simpa [c3EqRow, mkSingleRow] using hl
    rw [hleq]
    intro hty
    simp [c3EqPos, testPos] at hty
  · with_unfolding_all rfl
  · with_unfolding_all rfl

/-- C3 (amended): a row with no legs reference (`_legs` undefined) never
matches any order — every such row is returned unchanged and the pool is
untouched. -/
theorem matchOrdersToRows_no_legsRef (today : ℤ) (rows : List DisplayRow)
    (orders : List Order) (h : ∀ r ∈ rows, r.legsRef = none) :
    matchOrdersToRows today rows orders = (rows, orders) := by
  induction rows generalizing orders with
  | nil => rfl
  | cons r rs ih =>
    have hr : r.legsRef = none := h r (List.mem_cons_self ..)
    have hstep : matchRowStep today orders r = (r, orders) := by
      unfold matchRowStep
      rw [hr]
    simp only [matchOrdersToRows, hstep,
      ih orders fun x hx => h x (List.mem_cons_of_mem _ hx)]

def bareRow : DisplayRow := { toPosition := testPos "EQ" none none 1 0 none }

theorem matchOrdersToRows_no_legsRef_witness :
    (∀ r ∈ [bareRow], r.legsRef = none) ∧
    matchOrdersToRows 0 [bareRow] [c3Order] = ([bareRow], [c3Order]) := by
  have hyp : ∀ r ∈ [bareRow], r.legsRef = none := by
    intro r hr
    rw [List.mem_singleton] at hr
    subst hr
    rfl
  exact ⟨hyp, matchOrdersToRows_no_legsRef 0 [bareRow] [c3Order] hyp⟩

def c4Pos : Position := testPos "OPTN" (some "CALL") (some 100) 1 40 (some 5)

def c4Row : DisplayRow := mkSingleRow c4Pos

def c4OrderLeg : OrderLeg :=
  { symbol := "SYM", orderedQuantity := 1, orderAction := "SELL",
    strikePrice := some 100, expiryYear := some 2026, expiryMonth := some 1,
    expiryDay := some 2 }

def c4Order : Order :=
  { orderId := some 9, limitPrice := 1, priceType := "LIMIT", status := "OPEN",
    baseSymbol := "BASE", legs := [c4OrderLeg] }

/-- The day on which the order leg expiring 2026-01-02 has 5 days to expiry,
matching the row leg's stored dte. -/
def c4Day : ℤ := daysFromCivil 2026 1 2 - 5

/-- C4 (counterexample): reconciliation output is not determined by the rows
and orders alone — `isExitOrder` computes each order leg's dte from the
current date, so running `matchOrdersToRows` on the same inputs one day
apart flips a match (on `c4Day` the computed dte 5 equals the row's stored
dte and the order is claimed; a day later it is not). -/
theorem matchOrdersToRows_time_dependent :
    matchOrdersToRows c4Day [c4Row] [c4Order] ≠
      matchOrdersToRows (c4Day + 1) [c4Row] [c4Order] := by
  apply of_decide_eq_false
  with_unfolding_all rfl

theorem matchOrdersToRows_dte_congr_witness :
    (∀ o ∈ [c3Order], ∀ l ∈ o.legs, computeOrderDte 0 l = computeOrderDte 1 l) ∧
    matchOrdersToRows 0 [c4Row] [c3Order] = matchOrdersToRows 1 [c4Row] [c3Order] := by
  have hyp : ∀ o ∈ [c3Order], ∀ l ∈ o.legs, computeOrderDte 0 l = computeOrderDte 1 l := by
    intro o ho l hl
    rw [List.mem_singleton] at ho
    subst ho
    simp only [c3Order, List.mem_singleton] at hl
    subst hl
    rfl
  exact ⟨hyp, matchOrdersToRows_dte_congr 0 1 [c4Row] [c3Order] hyp⟩
